import Mathlib

/-!
# IrRemote: carrier configuration and command transmission

A shallow embedding of `src/ir_remote.h` and `src/ir_remote.cpp`.

* The object fields `freq_ticks`, `duty_ticks` (both `uint8_t`) and the timer 2
  registers `TIMSK2`, `TCCR2A`, `TCCR2B`, `OCR2A`, `OCR2B` (8 bits each) are
  natural numbers; every store reduces modulo 256 where the stored expression
  can exceed 8 bits.
* `pinMode` and `digitalWrite` act on a table of pin directions and levels.
* `sendCommand` is a loop with no bound of its own, so it is run with a fuel
  argument; reading the table past its end is reported as `outOfBounds`.
* Table entries are `int` values; `delayMicroseconds` takes an `unsigned int`,
  16 bits wide on this target, so each argument is converted modulo 65536.
-/

namespace IrRemote

/-! ## Constants -/

/-- Value of the `FREQ_CONV_FACTOR` define in `ir_remote.h`. -/
def FREQ_CONV_FACTOR : Nat := 8000

/-- Value of `IrRemote::IRledPin` (OC2B). -/
def IRledPin : Nat := 3

/-! Bit numbers of the ATmega328P timer 2 registers, as `avr/io.h` declares
them (the header belongs to the toolchain, not to this repository). -/

/-- Bit `TOIE2` of `TIMSK2`. -/
def TOIE2 : Nat := 0
/-- Bit `OCIE2A` of `TIMSK2`. -/
def OCIE2A : Nat := 1
/-- Bit `OCIE2B` of `TIMSK2`. -/
def OCIE2B : Nat := 2

/-- Bit `CS20` of `TCCR2B`. -/
def CS20 : Nat := 0
/-- Bit `CS21` of `TCCR2B`. -/
def CS21 : Nat := 1
/-- Bit `CS22` of `TCCR2B`. -/
def CS22 : Nat := 2
/-- Bit `WGM22` of `TCCR2B`. -/
def WGM22 : Nat := 3

/-- Bit `WGM20` of `TCCR2A`. -/
def WGM20 : Nat := 0
/-- Bit `WGM21` of `TCCR2A`. -/
def WGM21 : Nat := 1
/-- Bit `COM2B0` of `TCCR2A`. -/
def COM2B0 : Nat := 4
/-- Bit `COM2B1` of `TCCR2A`. -/
def COM2B1 : Nat := 5
/-- Bit `COM2A0` of `TCCR2A`. -/
def COM2A0 : Nat := 6
/-- Bit `COM2A1` of `TCCR2A`. -/
def COM2A1 : Nat := 7

/-! ## Register arithmetic -/

/-- The statement `REG |= mask` on an 8-bit register: the new register value. -/
def setBits (reg mask : Nat) : Nat := (reg ||| mask) % 256

/-- The statement `REG &= ~mask` on an 8-bit register: the new register value.
The complement is taken over the register width, which is what survives the
store of the promoted `int` result into the 8-bit register. -/
def clearBits (reg mask : Nat) : Nat := (reg &&& (255 ^^^ mask)) % 256

/-! ## State -/

/-- The `IrRemote` object fields, the timer 2 registers and the pin table. -/
structure State where
  freq_ticks : Nat
  duty_ticks : Nat
  TIMSK2 : Nat
  TCCR2A : Nat
  TCCR2B : Nat
  OCR2A : Nat
  OCR2B : Nat
  /-- Direction of each digital pin: `true` when `pinMode (pin, OUTPUT)` was the last call. -/
  pinOutput : Nat → Bool
  /-- Level of each digital pin: `true` for HIGH. -/
  pinHigh : Nat → Bool

/-- The call `pinMode (pin, OUTPUT)`. -/
def pinModeOutput (s : State) (pin : Nat) : State :=
  { s with pinOutput := fun p => if p = pin then true else s.pinOutput p }

/-- The call `digitalWrite (pin, LOW)`. -/
def digitalWriteLow (s : State) (pin : Nat) : State :=
  { s with pinHigh := fun p => if p = pin then false else s.pinHigh p }

/-- All registers hold 8-bit values. -/
def State.wf (s : State) : Prop :=
  s.freq_ticks < 256 ∧ s.duty_ticks < 256 ∧ s.TIMSK2 < 256 ∧ s.TCCR2A < 256 ∧
  s.TCCR2B < 256 ∧ s.OCR2A < 256 ∧ s.OCR2B < 256

/-! ## `IrRemote::initialise` -/

/-- The body of `IrRemote::initialise` for a non-zero `frequency_khz`,
statement by statement. -/
def initialiseBody (s : State) (frequency_khz : Nat) : State :=
  -- freq_ticks = FREQ_CONV_FACTOR / frequency_khz;   (int quotient stored in a uint8_t)
  let s := { s with freq_ticks := (FREQ_CONV_FACTOR / frequency_khz) % 256 }
  -- duty_ticks = (freq_ticks * 2) / 3;               (computed in int, stored in a uint8_t)
  let s := { s with duty_ticks := ((s.freq_ticks * 2) / 3) % 256 }
  -- pinMode( IRledPin, OUTPUT );
  let s := pinModeOutput s IRledPin
  -- digitalWrite( IRledPin, LOW );
  let s := digitalWriteLow s IRledPin
  -- TIMSK2 &= ~((1<<OCIE2A) | (1<<OCIE2B) | (1<<TOIE2));
  let s := { s with TIMSK2 := clearBits s.TIMSK2 ((1 <<< OCIE2A) ||| (1 <<< OCIE2B) ||| (1 <<< TOIE2)) }
  -- TCCR2B &= ~((1<<CS21) | (1<<CS22));
  let s := { s with TCCR2B := clearBits s.TCCR2B ((1 <<< CS21) ||| (1 <<< CS22)) }
  -- TCCR2B |= (1<<CS20);
  let s := { s with TCCR2B := setBits s.TCCR2B (1 <<< CS20) }
  -- OCR2A = freq_ticks;
  let s := { s with OCR2A := s.freq_ticks }
  -- OCR2B = duty_ticks;
  let s := { s with OCR2B := s.duty_ticks }
  -- TCCR2A &= ~(1<<WGM21);
  let s := { s with TCCR2A := clearBits s.TCCR2A (1 <<< WGM21) }
  -- TCCR2A |= (1<<WGM20);
  let s := { s with TCCR2A := setBits s.TCCR2A (1 <<< WGM20) }
  -- TCCR2B |= (1<<WGM22);
  let s := { s with TCCR2B := setBits s.TCCR2B (1 <<< WGM22) }
  -- TCCR2A &= ~((1<<COM2A0) | (1<<COM2A1));
  let s := { s with TCCR2A := clearBits s.TCCR2A ((1 <<< COM2A0) ||| (1 <<< COM2A1)) }
  -- TCCR2A &= ~((1<<COM2B0) | (1<<COM2B1));
  let s := { s with TCCR2A := clearBits s.TCCR2A ((1 <<< COM2B0) ||| (1 <<< COM2B1)) }
  s

/-- The method `IrRemote::initialise (const uint8_t frequency_khz)`. The
division `FREQ_CONV_FACTOR / frequency_khz` is undefined for
`frequency_khz = 0`, for which no state is returned. -/
def initialise (s : State) (frequency_khz : Nat) : Option State :=
  if frequency_khz = 0 then none else some (initialiseBody s frequency_khz)

/-! ## `IrRemote::sendCommand` -/

/-- What `sendCommand` does to the outside world, in order. -/
inductive Event where
  /-- A store to `TCCR2A`, with the value stored. -/
  | writeTCCR2A (value : Nat)
  /-- A call of `delayMicroseconds`, with the value its `unsigned int` parameter receives. -/
  | delay (us : Int)
  deriving DecidableEq, Repr

/-- How a run of `sendCommand` ends. -/
inductive Outcome where
  /-- The loop left through `finished = 1` and the call returned. -/
  | returned (s : State) (trace : List Event)
  /-- The loop read `command[i]` past the end of the caller's table. -/
  | outOfBounds (s : State) (trace : List Event)
  /-- The loop was still running when the fuel ran out. -/
  | running (s : State) (trace : List Event)

/-- The conversion of an `int` argument to the `unsigned int` parameter of
`delayMicroseconds`, 16 bits wide on this target: the value modulo 65536, so a
negative `x` arrives as `65536 + x`. -/
def toUnsignedInt (x : Int) : Int := x % 65536

/-- The `for` loop of `IrRemote::sendCommand`, entered with index `i`, state `s`
and the events `trace` already performed; each unit of fuel pays for one
iteration. The index is a `uint8_t`, so `i++` wraps at 256. -/
def sendLoop : Nat → List (Int × Int) → Nat → State → List Event → Outcome
  | 0, _, _, s, trace => Outcome.running s trace
  | fuel + 1, command, i, s, trace =>
    -- TCCR2A |= (1<<COM2B1);
    let s := { s with TCCR2A := setBits s.TCCR2A (1 <<< COM2B1) }
    let trace := trace ++ [Event.writeTCCR2A s.TCCR2A]
    match command[i]? with
    | none => Outcome.outOfBounds s trace
    | some (onUs, offUs) =>
      -- delayMicroseconds( command[i][0] );
      let trace := trace ++ [Event.delay (toUnsignedInt onUs)]
      -- TCCR2A &= ~(1<<COM2B1);
      let s := { s with TCCR2A := clearBits s.TCCR2A (1 <<< COM2B1) }
      let trace := trace ++ [Event.writeTCCR2A s.TCCR2A]
      -- if( command[i][1] == 0 ) finished = 1;
      if offUs = 0 then Outcome.returned s trace
      -- else delayMicroseconds( command[i][1] );   then i++
      else sendLoop fuel command ((i + 1) % 256) s (trace ++ [Event.delay (toUnsignedInt offUs)])

/-- The method `IrRemote::sendCommand (const int command[][2])`: the loop started
at `i = 0` with nothing performed yet. -/
def sendCommand (fuel : Nat) (command : List (Int × Int)) (s : State) : Outcome :=
  sendLoop fuel command 0 s []

/-! ## Reading a trace -/

/-- Whether a value of `TCCR2A` connects OC2B to its pin (`COM2B1` set). -/
def connected (tccr2a : Nat) : Bool := tccr2a.testBit COM2B1

/-- The (output state, duration) pairs of a trace: every delay paired with
whether OC2B was connected while it ran; `conn` is the connection state before
the first event. -/
def pulses : Bool → List Event → List (Bool × Int)
  | _, [] => []
  | _, Event.writeTCCR2A v :: rest => pulses (connected v) rest
  | conn, Event.delay us :: rest => (conn, us) :: pulses conn rest

/-- Sum of all delays requested in a trace. -/
def totalDelay : List Event → Int
  | [] => 0
  | Event.writeTCCR2A _ :: rest => totalDelay rest
  | Event.delay us :: rest => us + totalDelay rest

/-- The events of one pair `(on, off)` that does not end the sequence, for a
register that held `r` on entry to `sendCommand`: connect, wait for the
converted `on`, disconnect, wait for the converted `off`. -/
def pairEvents (r : Nat) (p : Int × Int) : List Event :=
  [Event.writeTCCR2A (setBits r (1 <<< COM2B1)), Event.delay (toUnsignedInt p.1),
   Event.writeTCCR2A (clearBits r (1 <<< COM2B1)), Event.delay (toUnsignedInt p.2)]

/-- The events of the terminating pair with on-duration `a`: connect, wait for
the converted `a`, disconnect. -/
def lastEvents (r : Nat) (a : Int) : List Event :=
  [Event.writeTCCR2A (setBits r (1 <<< COM2B1)), Event.delay (toUnsignedInt a),
   Event.writeTCCR2A (clearBits r (1 <<< COM2B1))]

/-- The event sequence for the pairs `before` followed by a terminating pair
with on-duration `a`. -/
def gatingEvents (r : Nat) (before : List (Int × Int)) (a : Int) : List Event :=
  (before.map (pairEvents r)).flatten ++ lastEvents r a

/-- The events the pulse-gating property names for one pair that does not end
the sequence: connect, delay `command[i][0]`, disconnect, delay `command[i][1]`,
the delays being the table entries themselves. -/
def claimedPairEvents (r : Nat) (p : Int × Int) : List Event :=
  [Event.writeTCCR2A (setBits r (1 <<< COM2B1)), Event.delay p.1,
   Event.writeTCCR2A (clearBits r (1 <<< COM2B1)), Event.delay p.2]

/-- The event sequence the pulse-gating property names for the pairs `before`
followed by a terminating pair with on-duration `a`: the events of each pair in
order, then connect, delay `a`, disconnect. -/
def claimedEvents (r : Nat) (before : List (Int × Int)) (a : Int) : List Event :=
  (before.map (claimedPairEvents r)).flatten ++
    [Event.writeTCCR2A (setBits r (1 <<< COM2B1)), Event.delay a,
     Event.writeTCCR2A (clearBits r (1 <<< COM2B1))]

/-- The events performed by a run. -/
def Outcome.trace : Outcome → List Event
  | Outcome.returned _ trace => trace
  | Outcome.outOfBounds _ trace => trace
  | Outcome.running _ trace => trace

/-- The state a run ended in. -/
def Outcome.state : Outcome → State
  | Outcome.returned s _ => s
  | Outcome.outOfBounds s _ => s
  | Outcome.running s _ => s

/-- Whether the call returned. -/
def Outcome.isReturned : Outcome → Bool
  | Outcome.returned _ _ => true
  | _ => false

/-- The (output state, duration) pairs the pairs `before` and a terminating
on-duration `a` ask for: ON then OFF for each pair, then one last ON. -/
def gatingPulses (before : List (Int × Int)) (a : Int) : List (Bool × Int) :=
  (before.map fun p => [(true, p.1), (false, p.2)]).flatten ++ [(true, a)]

/-- The header comment's example table `{{200, 50}, {100, 150}, {200, 0}}`. -/
def exampleCommand : List (Int × Int) := [(200, 50), (100, 150), (200, 0)]

/-- A state with every register and field zero and every pin an input at LOW
(the timer registers after reset). -/
def resetState : State :=
  { freq_ticks := 0, duty_ticks := 0, TIMSK2 := 0, TCCR2A := 0, TCCR2B := 0, OCR2A := 0,
    OCR2B := 0, pinOutput := fun _ => false, pinHigh := fun _ => false }

/-- A table with negative entries in its first pair, terminated at index 1. -/
def negativeCommand : List (Int × Int) := [(-5, -1), (20, 0)]

/-- A table of 257 pairs whose only pair with off-duration 0 is the last one,
at index 256. -/
def longCommand : List (Int × Int) := List.replicate 256 (1, 1) ++ [(1, 0)]

/-- A table is terminated within reach of `fuel` iterations: its first pair
with off-duration 0 lies at an index `n <= 255` with `n < fuel`. -/
def Terminated (fuel : Nat) (command : List (Int × Int)) : Prop :=
  ∃ n a, n ≤ 255 ∧ n < fuel ∧ command[n]? = some (a, 0) ∧
    ∀ j p, j < n → command[j]? = some p → p.2 ≠ 0

/-- Consecutive calls `sendCommand (c1); sendCommand (c2); ...`, each run with
`fuel`; no state when one of the calls does not return. -/
def sendCommands (fuel : Nat) : List (List (Int × Int)) → State → Option State
  | [], s => some s
  | command :: more, s =>
    match sendCommand fuel command s with
    | Outcome.returned s' _ => sendCommands fuel more s'
    | _ => none

/-- A state with every register and field at 255, all bits set. -/
def fullState : State :=
  { freq_ticks := 255, duty_ticks := 255, TIMSK2 := 255, TCCR2A := 255, TCCR2B := 255,
    OCR2A := 255, OCR2B := 255, pinOutput := fun _ => false, pinHigh := fun _ => false }

/-! ## Register arithmetic lemmas -/

theorem testBit_setBits (reg mask i : Nat) :
    (setBits reg mask).testBit i = (decide (i < 8) && (reg.testBit i || mask.testBit i)) := by
  unfold setBits
  rw [show (256 : Nat) = 2 ^ 8 from rfl, Nat.testBit_mod_two_pow, Nat.testBit_or]

theorem testBit_clearBits (reg mask i : Nat) :
    (clearBits reg mask).testBit i =
      (decide (i < 8) && (reg.testBit i && !mask.testBit i)) := by
  unfold clearBits
  rw [show (256 : Nat) = 2 ^ 8 from rfl, Nat.testBit_mod_two_pow, Nat.testBit_and,
    Nat.testBit_xor, show (255 : Nat) = 2 ^ 8 - 1 from rfl, Nat.testBit_two_pow_sub_one]
  by_cases h : i < 8 <;> simp [h]

theorem testBit_bit (k i : Nat) : (1 <<< k).testBit i = decide (k = i) := by
  rw [Nat.one_shiftLeft, Nat.testBit_two_pow]

theorem setBits_lt (reg mask : Nat) : setBits reg mask < 256 :=
  Nat.mod_lt _ (by decide)

theorem clearBits_lt (reg mask : Nat) : clearBits reg mask < 256 :=
  Nat.mod_lt _ (by decide)

theorem clearBits_setBits (reg mask : Nat) :
    clearBits (setBits reg mask) mask = clearBits reg mask := by
  apply Nat.eq_of_testBit_eq
  intro i
  simp only [testBit_clearBits, testBit_setBits]
  cases decide (i < 8) <;> cases reg.testBit i <;> cases mask.testBit i <;> rfl

theorem setBits_clearBits (reg mask : Nat) :
    setBits (clearBits reg mask) mask = setBits reg mask := by
  apply Nat.eq_of_testBit_eq
  intro i
  simp only [testBit_clearBits, testBit_setBits]
  cases decide (i < 8) <;> cases reg.testBit i <;> cases mask.testBit i <;> rfl

theorem clearBits_clearBits (reg mask : Nat) :
    clearBits (clearBits reg mask) mask = clearBits reg mask := by
  apply Nat.eq_of_testBit_eq
  intro i
  simp only [testBit_clearBits]
  cases decide (i < 8) <;> cases reg.testBit i <;> cases mask.testBit i <;> rfl

theorem connected_setBits (r : Nat) : connected (setBits r (1 <<< COM2B1)) = true := by
  unfold connected
  rw [testBit_setBits, testBit_bit]
  simp [COM2B1]

theorem connected_clearBits (r : Nat) : connected (clearBits r (1 <<< COM2B1)) = false := by
  unfold connected
  rw [testBit_clearBits, testBit_bit]
  simp [COM2B1]

/-! ## The transmit loop on a terminated table -/

theorem gatingEvents_clearBits (r : Nat) (before : List (Int × Int)) (a : Int) :
    gatingEvents (clearBits r (1 <<< COM2B1)) before a = gatingEvents r before a := by
  have hp : pairEvents (clearBits r (1 <<< COM2B1)) = pairEvents r := by
    funext p
    simp [pairEvents, setBits_clearBits, clearBits_clearBits]
  simp [gatingEvents, lastEvents, hp, setBits_clearBits, clearBits_clearBits]

theorem gatingEvents_cons (r : Nat) (p : Int × Int) (before : List (Int × Int)) (a : Int) :
    gatingEvents r (p :: before) a = pairEvents r p ++ gatingEvents r before a := by
  simp [gatingEvents]

/-- The loop entered at index `done.length` of `done ++ rest ++ (a, 0) :: tail`,
where no pair of `rest` has off-duration 0 and the terminating pair lies at an
index the 8-bit counter reaches, returns after the events of `rest` and of the
terminating pair, with `TCCR2A` changed in `COM2B1` only. -/
theorem sendLoop_terminated (rest : List (Int × Int)) :
    ∀ (done tail : List (Int × Int)) (a : Int) (fuel : Nat) (s : State) (trace : List Event),
      done.length + rest.length ≤ 255 → (∀ p ∈ rest, p.2 ≠ 0) → rest.length < fuel →
      sendLoop fuel (done ++ rest ++ (a, 0) :: tail) done.length s trace =
        Outcome.returned { s with TCCR2A := clearBits s.TCCR2A (1 <<< COM2B1) }
          (trace ++ gatingEvents s.TCCR2A rest a) := by
  induction rest with
  | nil =>
    intro done tail a fuel s trace _ _ hfuel
    obtain ⟨fuel, rfl⟩ : ∃ f, fuel = f + 1 := ⟨fuel - 1, by simp at hfuel; omega⟩
    have hget : (done ++ [] ++ (a, 0) :: tail)[done.length]? = some (a, 0) := by
      rw [List.append_nil, List.getElem?_append_right (le_refl _)]
      simp
    rw [sendLoop]
    simp only [hget, if_true]
    simp [gatingEvents, lastEvents, clearBits_setBits]
  | cons p rest ih =>
    intro done tail a fuel s trace hlen hoff hfuel
    obtain ⟨fuel, rfl⟩ : ∃ f, fuel = f + 1 := ⟨fuel - 1, by simp at hfuel; omega⟩
    have hp : p.2 ≠ 0 := hoff p (by simp)
    have hidx : (done.length + 1) % 256 = (done ++ [p]).length := by
      simp at hlen ⊢
      omega
    have hcmd : done ++ p :: rest ++ (a, 0) :: tail = (done ++ [p]) ++ rest ++ (a, 0) :: tail := by
      simp
    have hget : (done ++ p :: rest ++ (a, 0) :: tail)[done.length]? = some p := by
      rw [List.append_assoc, List.getElem?_append_right (le_refl _)]
      simp
    rw [sendLoop]
    simp only [hget, hp, if_false, hidx]
    rw [hcmd, ih (done ++ [p]) tail a fuel _ _ (by simp at hlen ⊢; omega)
      (fun q hq => hoff q (by simp [hq])) (by simp at hfuel; omega)]
    simp [gatingEvents_cons, pairEvents, clearBits_setBits, clearBits_clearBits,
      gatingEvents_clearBits]

theorem claimedEvents_cons (r : Nat) (p : Int × Int) (before : List (Int × Int)) (a : Int) :
    claimedEvents r (p :: before) a = claimedPairEvents r p ++ claimedEvents r before a := by
  simp [claimedEvents]

theorem pulses_claimedEvents (c : Bool) (r : Nat) (before : List (Int × Int)) (a : Int) :
    pulses c (claimedEvents r before a) = gatingPulses before a := by
  induction before generalizing c with
  | nil => simp [claimedEvents, gatingPulses, pulses, connected_setBits]
  | cons p before ih =>
    rw [claimedEvents_cons]
    simp [claimedPairEvents, pulses, connected_setBits, connected_clearBits, ih, gatingPulses]

theorem totalDelay_claimedEvents (r : Nat) (before : List (Int × Int)) (a : Int) :
    totalDelay (claimedEvents r before a) =
      (before.map Prod.fst).sum + a + (before.map Prod.snd).sum := by
  induction before with
  | nil => simp [claimedEvents, totalDelay]
  | cons p before ih =>
    rw [claimedEvents_cons]
    simp [claimedPairEvents, totalDelay, ih]
    ring

theorem toUnsignedInt_of_nonneg (x : Int) (h0 : 0 ≤ x) (h1 : x ≤ 32767) :
    toUnsignedInt x = x :=
  Int.emod_eq_of_lt h0 (by omega)

theorem gatingEvents_eq_claimedEvents (r : Nat) (before : List (Int × Int)) (a : Int)
    (hbefore : ∀ p ∈ before, 0 ≤ p.1 ∧ p.1 ≤ 32767 ∧ 0 ≤ p.2 ∧ p.2 ≤ 32767)
    (ha : 0 ≤ a ∧ a ≤ 32767) :
    gatingEvents r before a = claimedEvents r before a := by
  induction before with
  | nil => simp [gatingEvents, lastEvents, claimedEvents, toUnsignedInt_of_nonneg a ha.1 ha.2]
  | cons p before ih =>
    obtain ⟨h1, h2, h3, h4⟩ := hbefore p (by simp)
    rw [gatingEvents_cons, claimedEvents_cons, ih (fun q hq => hbefore q (by simp [hq]))]
    simp [pairEvents, claimedPairEvents, toUnsignedInt_of_nonneg p.1 h1 h2,
      toUnsignedInt_of_nonneg p.2 h3 h4]

theorem take_all (P : Int × Int → Prop) (command : List (Int × Int)) (n : Nat)
    (h : ∀ j p, j < n → command[j]? = some p → P p) : ∀ p ∈ command.take n, P p := by
  intro p hp
  obtain ⟨j, hj, hget⟩ := List.getElem_of_mem hp
  have hjn : j < n := by
    have := hj
    simp at this
    omega
  apply h j p hjn
  rw [List.getElem_take] at hget
  rw [← hget]
  exact List.getElem?_eq_getElem _

theorem sendCommand_terminated (before tail : List (Int × Int)) (a : Int) (fuel : Nat)
    (s : State) (hlen : before.length ≤ 255) (hoff : ∀ p ∈ before, p.2 ≠ 0)
    (hfuel : before.length < fuel) :
    sendCommand fuel (before ++ (a, 0) :: tail) s =
      Outcome.returned { s with TCCR2A := clearBits s.TCCR2A (1 <<< COM2B1) }
        (gatingEvents s.TCCR2A before a) := by
  have h := sendLoop_terminated before [] tail a fuel s [] (by simpa using hlen) hoff hfuel
  simpa [sendCommand] using h

theorem split_at_terminator (command : List (Int × Int)) (n : Nat) (a : Int)
    (hterm : command[n]? = some (a, 0)) :
    command = command.take n ++ (a, 0) :: command.drop (n + 1) := by
  obtain ⟨hlt, hget⟩ := List.getElem?_eq_some_iff.mp hterm
  rw [← hget, ← List.drop_eq_getElem_cons hlt, List.take_append_drop]

theorem take_nonzero (command : List (Int × Int)) (n : Nat)
    (hfirst : ∀ j p, j < n → command[j]? = some p → p.2 ≠ 0) :
    ∀ p ∈ command.take n, p.2 ≠ 0 := by
  intro p hp
  obtain ⟨j, hj, hget⟩ := List.getElem_of_mem hp
  have hjn : j < n := by
    have := hj
    simp at this
    omega
  apply hfirst j p hjn
  rw [List.getElem_take] at hget
  rw [← hget]
  exact List.getElem?_eq_getElem _

theorem take_length_of_terminator (command : List (Int × Int)) (n : Nat) (a : Int)
    (hterm : command[n]? = some (a, 0)) : (command.take n).length = n := by
  obtain ⟨hlt, _⟩ := List.getElem?_eq_some_iff.mp hterm
  simp
  omega

/-! ## Pulse gating -/

/-- C1, counterexample. The table `{{-5, -1}, {20, 0}}` has its first zero
off-duration at index 1, and `sendCommand` returns on it, but the delays it
requests are 65531, 65535 and 20 (the entries converted to `unsigned int`),
not the table entries -5, -1 and 20; they add up to 131086, while the
on-durations of the indices `<= 1` plus the off-durations of the indices `< 1`
add up to 14. -/
theorem sendCommand_negative_durations :
    negativeCommand[0]? = some (-5, -1) ∧ negativeCommand[1]? = some (20, 0) ∧
    (sendCommand 2 negativeCommand resetState).isReturned = true ∧
    (sendCommand 2 negativeCommand resetState).trace =
      [Event.writeTCCR2A 32, Event.delay 65531, Event.writeTCCR2A 0, Event.delay 65535,
       Event.writeTCCR2A 32, Event.delay 20, Event.writeTCCR2A 0] ∧
    (sendCommand 2 negativeCommand resetState).trace ≠
      claimedEvents resetState.TCCR2A (negativeCommand.take 1) 20 ∧
    pulses (connected resetState.TCCR2A) (sendCommand 2 negativeCommand resetState).trace =
      [(true, 65531), (false, 65535), (true, 20)] ∧
    totalDelay (sendCommand 2 negativeCommand resetState).trace = 131086 ∧
    ((negativeCommand.take (1 + 1)).map Prod.fst).sum +
      ((negativeCommand.take 1).map Prod.snd).sum = 14 := by
  refine ⟨rfl, rfl, ?_, ?_, ?_, ?_, ?_, ?_⟩ <;> decide

/-- C1, amended. Pulse gating: when the first pair with off-duration 0 of the
table lies at index `n <= 255` and the durations at the indices `<= n` are
non-negative (0..32767, the non-negative `int` values of the target),
`sendCommand` returns, having performed exactly: for each `i < n` in order
connect (store to `TCCR2A` with `COM2B1` set), delay `command[i][0]`, disconnect
(store with `COM2B1` cleared), delay `command[i][1]`; then connect, delay
`command[n][0]`, disconnect, with no delay after it. Every on-delay runs
connected and every off-delay disconnected, and the delays add up to the
on-durations of the indices `<= n` plus the off-durations of the indices `< n`.
For `{{200, 50}, {100, 150}, {200, 0}}` this is ON 200, OFF 50, ON 100, OFF 150,
ON 200 and 700 microseconds. -/
theorem sendCommand_pulse_gating (command : List (Int × Int)) (n : Nat) (a : Int) (s : State)
    (fuel : Nat) (hn : n ≤ 255) (hterm : command[n]? = some (a, 0))
    (hfirst : ∀ j p, j < n → command[j]? = some p → p.2 ≠ 0)
    (hdur : ∀ j p, j ≤ n → command[j]? = some p →
      0 ≤ p.1 ∧ p.1 ≤ 32767 ∧ 0 ≤ p.2 ∧ p.2 ≤ 32767)
    (hfuel : n < fuel) :
    sendCommand fuel command s =
        Outcome.returned { s with TCCR2A := clearBits s.TCCR2A (1 <<< COM2B1) }
          (claimedEvents s.TCCR2A (command.take n) a)
      ∧ pulses (connected s.TCCR2A) (sendCommand fuel command s).trace =
          gatingPulses (command.take n) a
      ∧ totalDelay (sendCommand fuel command s).trace =
          ((command.take (n + 1)).map Prod.fst).sum + ((command.take n).map Prod.snd).sum
      ∧ pulses (connected s.TCCR2A) (sendCommand 3 exampleCommand s).trace =
          [(true, 200), (false, 50), (true, 100), (false, 150), (true, 200)]
      ∧ totalDelay (sendCommand 3 exampleCommand s).trace = 700 := by
  have hlen := take_length_of_terminator command n a hterm
  have ha : 0 ≤ a ∧ a ≤ 32767 := by
    obtain ⟨h1, h2, _, _⟩ := hdur n (a, 0) (le_refl n) hterm
    exact ⟨h1, h2⟩
  have hbefore : ∀ p ∈ command.take n, 0 ≤ p.1 ∧ p.1 ≤ 32767 ∧ 0 ≤ p.2 ∧ p.2 ≤ 32767 :=
    take_all _ command n (fun j p hj hp => hdur j p (by omega) hp)
  have hrun : sendCommand fuel command s =
      Outcome.returned { s with TCCR2A := clearBits s.TCCR2A (1 <<< COM2B1) }
        (claimedEvents s.TCCR2A (command.take n) a) := by
    rw [← gatingEvents_eq_claimedEvents s.TCCR2A (command.take n) a hbefore ha]
    conv_lhs => rw [split_at_terminator command n a hterm]
    exact sendCommand_terminated (command.take n) _ a fuel s (by omega)
      (take_nonzero command n hfirst) (by omega)
  have hex : sendCommand 3 exampleCommand s =
      Outcome.returned { s with TCCR2A := clearBits s.TCCR2A (1 <<< COM2B1) }
        (claimedEvents s.TCCR2A [(200, 50), (100, 150)] 200) := by
    rw [← gatingEvents_eq_claimedEvents s.TCCR2A [(200, 50), (100, 150)] 200
      (by intro p hp; simp at hp; rcases hp with rfl | rfl <;> decide) (by decide)]
    exact sendCommand_terminated [(200, 50), (100, 150)] [] 200 3 s (by decide)
      (by intro p hp; simp at hp; rcases hp with rfl | rfl <;> decide) (by decide)
  refine ⟨hrun, ?_, ?_, ?_, ?_⟩
  · rw [hrun, Outcome.trace, pulses_claimedEvents]
  · rw [hrun, Outcome.trace, totalDelay_claimedEvents, List.take_succ, hterm]
    simp
  · rw [hex, Outcome.trace, pulses_claimedEvents]
    rfl
  · rw [hex, Outcome.trace, totalDelay_claimedEvents]
    rfl

theorem sendCommand_pulse_gating_witness :
    (2 ≤ 255 ∧ exampleCommand[2]? = some (200, 0) ∧ 2 < 3) ∧
    (sendCommand 3 exampleCommand resetState =
        Outcome.returned
          { resetState with TCCR2A := clearBits resetState.TCCR2A (1 <<< COM2B1) }
          (claimedEvents resetState.TCCR2A (exampleCommand.take 2) 200)
      ∧ pulses (connected resetState.TCCR2A) (sendCommand 3 exampleCommand resetState).trace =
          gatingPulses (exampleCommand.take 2) 200
      ∧ totalDelay (sendCommand 3 exampleCommand resetState).trace =
          ((exampleCommand.take (2 + 1)).map Prod.fst).sum +
            ((exampleCommand.take 2).map Prod.snd).sum
      ∧ pulses (connected resetState.TCCR2A) (sendCommand 3 exampleCommand resetState).trace =
          [(true, 200), (false, 50), (true, 100), (false, 150), (true, 200)]
      ∧ totalDelay (sendCommand 3 exampleCommand resetState).trace = 700) :=
  ⟨⟨by decide, rfl, by decide⟩,
   sendCommand_pulse_gating exampleCommand 2 200 resetState 3 (by decide) rfl
    (by
      intro j p hj h
      have hj2 : j = 0 ∨ j = 1 := by omega
      rcases hj2 with rfl | rfl <;> simp [exampleCommand] at h <;> subst h <;> decide)
    (by
      intro j p hj h
      have hj3 : j = 0 ∨ j = 1 ∨ j = 2 := by omega
      rcases hj3 with rfl | rfl | rfl <;> simp [exampleCommand] at h <;> subst h <;> decide)
    (by decide)⟩

/-! ## The tick counts computed by `initialise` -/

theorem initialise_eq_some (s : State) (frequency_khz : Nat) (h : 0 < frequency_khz) :
    initialise s frequency_khz = some (initialiseBody s frequency_khz) := by
  simp [initialise, Nat.pos_iff_ne_zero.mp h]

set_option maxRecDepth 100000 in
theorem stored_period_ge_two :
    ∀ f, f < 256 → f ≠ 0 → 2 ≤ (FREQ_CONV_FACTOR / f) % 256 := by
  decide

/-- C2, counterexample. For `frequency_khz = 30`, inside the range 30..56,
`initialise` stores 10 in `freq_ticks` and in `OCR2A`, while `8000 / 30` is 266. -/
theorem initialise_period_30 :
    (initialise resetState 30).map State.freq_ticks = some 10 ∧
    (initialise resetState 30).map State.OCR2A = some 10 ∧
    FREQ_CONV_FACTOR / 30 = 266 := by
  refine ⟨rfl, rfl, rfl⟩

/-- C2, amended. Frequency quantization: for every `frequency_khz` in 32..56,
`initialise` returns and the stored `freq_ticks`, which is also the value
written to `OCR2A`, equals `8000 / frequency_khz` (truncating division). -/
theorem initialise_period_quantized (s : State) (frequency_khz : Nat)
    (hlo : 32 ≤ frequency_khz) (hhi : frequency_khz ≤ 56) :
    ∃ s', initialise s frequency_khz = some s' ∧
      s'.freq_ticks = FREQ_CONV_FACTOR / frequency_khz ∧
      s'.OCR2A = FREQ_CONV_FACTOR / frequency_khz := by
  refine ⟨initialiseBody s frequency_khz, initialise_eq_some s frequency_khz (by omega), ?_⟩
  have hlt : FREQ_CONV_FACTOR / frequency_khz < 256 := by
    rw [Nat.div_lt_iff_lt_mul (by omega)]
    simp only [FREQ_CONV_FACTOR]
    omega
  have hfreq : (initialiseBody s frequency_khz).freq_ticks = FREQ_CONV_FACTOR / frequency_khz :=
    Nat.mod_eq_of_lt hlt
  have hocr : (initialiseBody s frequency_khz).OCR2A = (initialiseBody s frequency_khz).freq_ticks :=
    rfl
  exact ⟨hfreq, hocr.trans hfreq⟩

theorem initialise_period_quantized_witness :
    (32 ≤ 38 ∧ 38 ≤ 56) ∧
    ∃ s', initialise resetState 38 = some s' ∧
      s'.freq_ticks = FREQ_CONV_FACTOR / 38 ∧ s'.OCR2A = FREQ_CONV_FACTOR / 38 :=
  ⟨by decide, initialise_period_quantized resetState 38 (by decide) (by decide)⟩

/-- C3. Duty computation: for every `frequency_khz` in 1..255, `initialise`
returns and the stored `duty_ticks`, which is also the value written to `OCR2B`,
equals `(p * 2) / 3` for the stored 8-bit `freq_ticks = p`, the product taken
without reduction modulo 256; the quotient fits in 8 bits. -/
theorem initialise_duty (s : State) (frequency_khz : Nat)
    (hlo : 1 ≤ frequency_khz) (hhi : frequency_khz ≤ 255) :
    ∃ s', initialise s frequency_khz = some s' ∧
      s'.freq_ticks < 256 ∧
      s'.duty_ticks = (s'.freq_ticks * 2) / 3 ∧
      s'.OCR2B = (s'.freq_ticks * 2) / 3 ∧
      (s'.freq_ticks * 2) / 3 < 256 := by
  refine ⟨initialiseBody s frequency_khz, initialise_eq_some s frequency_khz (by omega), ?_⟩
  have hp : (initialiseBody s frequency_khz).freq_ticks < 256 := Nat.mod_lt _ (by decide)
  have hq : ((initialiseBody s frequency_khz).freq_ticks * 2) / 3 < 256 := by omega
  have hduty : (initialiseBody s frequency_khz).duty_ticks =
      ((initialiseBody s frequency_khz).freq_ticks * 2) / 3 := Nat.mod_eq_of_lt hq
  have hocr : (initialiseBody s frequency_khz).OCR2B = (initialiseBody s frequency_khz).duty_ticks :=
    rfl
  exact ⟨hp, hduty, hocr.trans hduty, hq⟩

theorem initialise_duty_witness :
    (1 ≤ 38 ∧ 38 ≤ 255) ∧
    ∃ s', initialise resetState 38 = some s' ∧
      s'.freq_ticks < 256 ∧
      s'.duty_ticks = (s'.freq_ticks * 2) / 3 ∧
      s'.OCR2B = (s'.freq_ticks * 2) / 3 ∧
      (s'.freq_ticks * 2) / 3 < 256 :=
  ⟨by decide, initialise_duty resetState 38 (by decide) (by decide)⟩

/-- C4. Waveform invariant: for every `frequency_khz` in 1..255, `initialise`
returns and the stored values satisfy `0 < duty_ticks < freq_ticks`; the stored
period is at least 2, also where `8000 / frequency_khz` does not fit in 8 bits. -/
theorem initialise_waveform_invariant (s : State) (frequency_khz : Nat)
    (hlo : 1 ≤ frequency_khz) (hhi : frequency_khz ≤ 255) :
    ∃ s', initialise s frequency_khz = some s' ∧
      0 < s'.duty_ticks ∧ s'.duty_ticks < s'.freq_ticks ∧ 2 ≤ s'.freq_ticks := by
  refine ⟨initialiseBody s frequency_khz, initialise_eq_some s frequency_khz (by omega), ?_⟩
  have hp2 : 2 ≤ (initialiseBody s frequency_khz).freq_ticks :=
    stored_period_ge_two frequency_khz (by omega) (by omega)
  have hp : (initialiseBody s frequency_khz).freq_ticks < 256 := Nat.mod_lt _ (by decide)
  have hq : ((initialiseBody s frequency_khz).freq_ticks * 2) / 3 < 256 := by omega
  have hduty : (initialiseBody s frequency_khz).duty_ticks =
      ((initialiseBody s frequency_khz).freq_ticks * 2) / 3 := Nat.mod_eq_of_lt hq
  refine ⟨?_, ?_, hp2⟩ <;> rw [hduty] <;> omega

theorem initialise_waveform_invariant_witness :
    (1 ≤ 31 ∧ 31 ≤ 255) ∧
    ∃ s', initialise resetState 31 = some s' ∧
      0 < s'.duty_ticks ∧ s'.duty_ticks < s'.freq_ticks ∧ 2 ≤ s'.freq_ticks :=
  ⟨by decide, initialise_waveform_invariant resetState 31 (by decide) (by decide)⟩

/-! ## The registers and the pin after `initialise` -/

theorem initialiseBody_TIMSK2 (s : State) (f : Nat) :
    (initialiseBody s f).TIMSK2 =
      clearBits s.TIMSK2 ((1 <<< OCIE2A) ||| (1 <<< OCIE2B) ||| (1 <<< TOIE2)) := rfl

theorem initialiseBody_TCCR2B (s : State) (f : Nat) :
    (initialiseBody s f).TCCR2B =
      setBits (setBits (clearBits s.TCCR2B ((1 <<< CS21) ||| (1 <<< CS22))) (1 <<< CS20))
        (1 <<< WGM22) := rfl

theorem initialiseBody_TCCR2A (s : State) (f : Nat) :
    (initialiseBody s f).TCCR2A =
      clearBits (clearBits (setBits (clearBits s.TCCR2A (1 <<< WGM21)) (1 <<< WGM20))
        ((1 <<< COM2A0) ||| (1 <<< COM2A1))) ((1 <<< COM2B0) ||| (1 <<< COM2B1)) := rfl

theorem initialiseBody_pinOutput (s : State) (f : Nat) :
    (initialiseBody s f).pinOutput = fun p => if p = IRledPin then true else s.pinOutput p := rfl

theorem initialiseBody_pinHigh (s : State) (f : Nat) :
    (initialiseBody s f).pinHigh = fun p => if p = IRledPin then false else s.pinHigh p := rfl

/-- C5. Idle state before the first pulse: for every prior state and every
`frequency_khz > 0`, `initialise` returns with pin 3 (the IR LED pin) configured
as an output and driven LOW, and with the bits `COM2A0`, `COM2A1`, `COM2B0` and
`COM2B1` of `TCCR2A` all 0. -/
theorem initialise_idle (s : State) (frequency_khz : Nat) (hpos : 0 < frequency_khz) :
    ∃ s', initialise s frequency_khz = some s' ∧
      IRledPin = 3 ∧ s'.pinOutput 3 = true ∧ s'.pinHigh 3 = false ∧
      s'.TCCR2A.testBit COM2A0 = false ∧ s'.TCCR2A.testBit COM2A1 = false ∧
      s'.TCCR2A.testBit COM2B0 = false ∧ s'.TCCR2A.testBit COM2B1 = false := by
  refine ⟨initialiseBody s frequency_khz, initialise_eq_some s frequency_khz hpos, rfl, ?_, ?_,
    ?_, ?_, ?_, ?_⟩
  · simp [initialiseBody_pinOutput, IRledPin]
  · simp [initialiseBody_pinHigh, IRledPin]
  all_goals
    simp only [initialiseBody_TCCR2A, testBit_clearBits, testBit_setBits, Nat.testBit_or,
      testBit_bit]
    simp [COM2A0, COM2A1, COM2B0, COM2B1, WGM20, WGM21]

theorem initialise_idle_witness :
    0 < 38 ∧
    ∃ s', initialise resetState 38 = some s' ∧
      IRledPin = 3 ∧ s'.pinOutput 3 = true ∧ s'.pinHigh 3 = false ∧
      s'.TCCR2A.testBit COM2A0 = false ∧ s'.TCCR2A.testBit COM2A1 = false ∧
      s'.TCCR2A.testBit COM2B0 = false ∧ s'.TCCR2A.testBit COM2B1 = false :=
  ⟨by decide, initialise_idle resetState 38 (by decide)⟩

/-! ## The 8-bit loop counter -/

theorem longCommand_getElem (i : Nat) (h : i < 256) : longCommand[i]? = some (1, 1) := by
  unfold longCommand
  rw [List.getElem?_append_left (by rw [List.length_replicate]; exact h),
    List.getElem?_replicate, if_pos h]

theorem longCommand_length : longCommand.length = 257 := by
  rw [longCommand, List.length_append, List.length_replicate]
  rfl

theorem longCommand_last : longCommand[256]? = some (1, 0) := by
  unfold longCommand
  rw [List.getElem?_append_right (by rw [List.length_replicate]), List.length_replicate,
    Nat.sub_self]
  rfl

theorem sendLoop_longCommand (fuel : Nat) :
    ∀ (i : Nat) (s : State) (trace : List Event), i < 256 →
      (sendLoop fuel longCommand i s trace).isReturned = false ∧
      (sendLoop fuel longCommand i s trace).trace.length = trace.length + 4 * fuel := by
  induction fuel with
  | zero =>
    intro i s trace _
    simp [sendLoop, Outcome.isReturned, Outcome.trace]
  | succ fuel ih =>
    intro i s trace hi
    rw [sendLoop]
    simp only [longCommand_getElem i hi]
    have hne : ¬ ((1 : Int) = 0) := by decide
    simp only [hne, if_false]
    obtain ⟨h1, h2⟩ := ih ((i + 1) % 256) _ _ (Nat.mod_lt _ (by decide))
    refine ⟨h1, ?_⟩
    rw [h2]
    simp
    omega

/-- C6, the code at the failing input. The table `longCommand` has 257 pairs
and its first (and only) pair with off-duration 0 at index 256; `sendCommand`
on it never returns: whatever the fuel, the loop is still running, having
performed four events per iteration. -/
theorem sendCommand_longCommand_never_returns (fuel : Nat) (s : State) :
    longCommand.length = 257 ∧ longCommand[256]? = some (1, 0) ∧
    (∀ j, j < 256 → longCommand[j]? = some (1, 1)) ∧
    (sendCommand fuel longCommand s).isReturned = false ∧
    (sendCommand fuel longCommand s).trace.length = 4 * fuel := by
  refine ⟨longCommand_length, longCommand_last, longCommand_getElem, ?_⟩
  have h := sendLoop_longCommand fuel 0 s [] (by decide)
  simpa [sendCommand] using h

/-! ## Reconfiguration -/

theorem clock_select_idem (r c a w : Nat) :
    setBits (setBits (clearBits (setBits (setBits (clearBits r c) a) w) c) a) w =
      setBits (setBits (clearBits r c) a) w := by
  apply Nat.eq_of_testBit_eq
  intro i
  simp only [testBit_clearBits, testBit_setBits]
  cases decide (i < 8) <;> cases r.testBit i <;> cases c.testBit i <;> cases a.testBit i <;>
    cases w.testBit i <;> rfl

theorem waveform_idem (r m1 m2 m3 m4 : Nat) :
    clearBits (clearBits (setBits (clearBits
        (clearBits (clearBits (setBits (clearBits r m1) m2) m3) m4) m1) m2) m3) m4 =
      clearBits (clearBits (setBits (clearBits r m1) m2) m3) m4 := by
  apply Nat.eq_of_testBit_eq
  intro i
  simp only [testBit_clearBits, testBit_setBits]
  cases decide (i < 8) <;> cases r.testBit i <;> cases m1.testBit i <;> cases m2.testBit i <;>
    cases m3.testBit i <;> cases m4.testBit i <;> rfl

theorem initialiseBody_twice (s : State) (f1 f2 : Nat) :
    initialiseBody (initialiseBody s f1) f2 = initialiseBody s f2 := by
  have hA := waveform_idem s.TCCR2A (1 <<< WGM21) (1 <<< WGM20)
    ((1 <<< COM2A0) ||| (1 <<< COM2A1)) ((1 <<< COM2B0) ||| (1 <<< COM2B1))
  have hB := clock_select_idem s.TCCR2B ((1 <<< CS21) ||| (1 <<< CS22)) (1 <<< CS20)
    (1 <<< WGM22)
  have hM := clearBits_clearBits s.TIMSK2 ((1 <<< OCIE2A) ||| (1 <<< OCIE2B) ||| (1 <<< TOIE2))
  have hO : (fun p => if p = IRledPin then true
      else (fun q => if q = IRledPin then true else s.pinOutput q) p) =
      fun p => if p = IRledPin then true else s.pinOutput p := by
    funext p
    by_cases h : p = IRledPin <;> simp [h]
  have hL : (fun p => if p = IRledPin then false
      else (fun q => if q = IRledPin then false else s.pinHigh q) p) =
      fun p => if p = IRledPin then false else s.pinHigh p := by
    funext p
    by_cases h : p = IRledPin <;> simp [h]
  unfold initialiseBody pinModeOutput digitalWriteLow
  simp only [State.mk.injEq]
  exact ⟨trivial, trivial, hM, hA, hB, trivial, trivial, hO, hL⟩

/-- C7. Idempotent reconfiguration: for every initial state `s` and all
frequencies `f1`, `f2` in 1..255, `initialise f1` followed by `initialise f2`
returns, and yields exactly the state (fields, registers, pins) that
`initialise f2` alone yields from `s`. -/
theorem initialise_twice (s : State) (f1 f2 : Nat) (h1 : 1 ≤ f1 ∧ f1 ≤ 255)
    (h2 : 1 ≤ f2 ∧ f2 ≤ 255) :
    ∃ s2, initialise s f2 = some s2 ∧
      (initialise s f1).bind (fun s1 => initialise s1 f2) = some s2 := by
  refine ⟨initialiseBody s f2, initialise_eq_some s f2 (by omega), ?_⟩
  rw [initialise_eq_some s f1 (by omega), Option.some_bind,
    initialise_eq_some _ f2 (by omega), initialiseBody_twice]

theorem initialise_twice_witness :
    ((1 ≤ 38 ∧ 38 ≤ 255) ∧ (1 ≤ 56 ∧ 56 ≤ 255)) ∧
    ∃ s2, initialise resetState 56 = some s2 ∧
      (initialise resetState 38).bind (fun s1 => initialise s1 56) = some s2 :=
  ⟨by decide, initialise_twice resetState 38 56 (by decide) (by decide)⟩

/-! ## What lies after the terminator -/

/-- C9. Timer mode and prescaler: for every prior state and every
`frequency_khz > 0`, `initialise` returns with `CS22 = 0`, `CS21 = 0`, `CS20 = 1`
(no prescaling) and `WGM22 = 1`, `WGM21 = 0`, `WGM20 = 1` (phase-correct PWM,
TOP at `OCR2A`), with `OCR2A` holding `freq_ticks` and `OCR2B` holding
`duty_ticks`. -/
theorem initialise_timer_mode (s : State) (frequency_khz : Nat) (hpos : 0 < frequency_khz) :
    ∃ s', initialise s frequency_khz = some s' ∧
      s'.TCCR2B.testBit CS22 = false ∧ s'.TCCR2B.testBit CS21 = false ∧
      s'.TCCR2B.testBit CS20 = true ∧
      s'.TCCR2B.testBit WGM22 = true ∧ s'.TCCR2A.testBit WGM21 = false ∧
      s'.TCCR2A.testBit WGM20 = true ∧
      s'.OCR2A = s'.freq_ticks ∧ s'.OCR2B = s'.duty_ticks := by
  refine ⟨initialiseBody s frequency_khz, initialise_eq_some s frequency_khz hpos, ?_, ?_, ?_,
    ?_, ?_, ?_, rfl, rfl⟩
  all_goals
    simp only [initialiseBody_TCCR2A, initialiseBody_TCCR2B, testBit_clearBits,
      testBit_setBits, Nat.testBit_or, testBit_bit]
    simp [CS20, CS21, CS22, WGM22, COM2A0, COM2A1, COM2B0, COM2B1, WGM20, WGM21]

theorem initialise_timer_mode_witness :
    0 < 38 ∧
    ∃ s', initialise resetState 38 = some s' ∧
      s'.TCCR2B.testBit CS22 = false ∧ s'.TCCR2B.testBit CS21 = false ∧
      s'.TCCR2B.testBit CS20 = true ∧
      s'.TCCR2B.testBit WGM22 = true ∧ s'.TCCR2A.testBit WGM21 = false ∧
      s'.TCCR2A.testBit WGM20 = true ∧
      s'.OCR2A = s'.freq_ticks ∧ s'.OCR2B = s'.duty_ticks :=
  ⟨by decide, initialise_timer_mode resetState 38 (by decide)⟩

/-- C10. Interrupts masked: for every prior 8-bit value of `TIMSK2` and every
`frequency_khz > 0`, `initialise` returns with `OCIE2A`, `OCIE2B` and `TOIE2` all
0 and with every other bit of `TIMSK2` as it was before the call. -/
theorem initialise_interrupts_masked (s : State) (frequency_khz : Nat)
    (hpos : 0 < frequency_khz) (hreg : s.TIMSK2 < 256) :
    ∃ s', initialise s frequency_khz = some s' ∧
      s'.TIMSK2.testBit OCIE2A = false ∧ s'.TIMSK2.testBit OCIE2B = false ∧
      s'.TIMSK2.testBit TOIE2 = false ∧
      ∀ i, i ≠ OCIE2A → i ≠ OCIE2B → i ≠ TOIE2 →
        s'.TIMSK2.testBit i = s.TIMSK2.testBit i := by
  refine ⟨initialiseBody s frequency_khz, initialise_eq_some s frequency_khz hpos, ?_, ?_, ?_, ?_⟩
  · simp only [initialiseBody_TIMSK2, testBit_clearBits, Nat.testBit_or, testBit_bit]
    simp [OCIE2A, OCIE2B, TOIE2]
  · simp only [initialiseBody_TIMSK2, testBit_clearBits, Nat.testBit_or, testBit_bit]
    simp [OCIE2A, OCIE2B, TOIE2]
  · simp only [initialiseBody_TIMSK2, testBit_clearBits, Nat.testBit_or, testBit_bit]
    simp [OCIE2A, OCIE2B, TOIE2]
  · intro i hA hB hT
    simp only [initialiseBody_TIMSK2, testBit_clearBits, Nat.testBit_or, testBit_bit]
    have h1 : decide (OCIE2A = i) = false := by simpa using fun h => hA h.symm
    have h2 : decide (OCIE2B = i) = false := by simpa using fun h => hB h.symm
    have h3 : decide (TOIE2 = i) = false := by simpa using fun h => hT h.symm
    rw [h1, h2, h3]
    by_cases hi : i < 8
    · simp [hi]
    · have hbig : s.TIMSK2.testBit i = false := by
        apply Nat.testBit_lt_two_pow
        calc s.TIMSK2 < 2 ^ 8 := hreg
          _ ≤ 2 ^ i := Nat.pow_le_pow_right (by decide) (by omega)
      simp [hi, hbig]

theorem initialise_interrupts_masked_witness :
    (0 < 38 ∧ ({ resetState with TIMSK2 := 255 } : State).TIMSK2 < 256) ∧
    ∃ s', initialise { resetState with TIMSK2 := 255 } 38 = some s' ∧
      s'.TIMSK2.testBit OCIE2A = false ∧ s'.TIMSK2.testBit OCIE2B = false ∧
      s'.TIMSK2.testBit TOIE2 = false ∧
      ∀ i, i ≠ OCIE2A → i ≠ OCIE2B → i ≠ TOIE2 →
        s'.TIMSK2.testBit i = ({ resetState with TIMSK2 := 255 } : State).TIMSK2.testBit i :=
  ⟨⟨by decide, by decide⟩,
   initialise_interrupts_masked { resetState with TIMSK2 := 255 } 38 (by decide) (by decide)⟩

/-! ## Transmission leaves the configuration alone -/

theorem testBit_eq_false_of_lt (r i : Nat) (hr : r < 256) (hi : ¬ i < 8) :
    r.testBit i = false := by
  apply Nat.testBit_lt_two_pow
  calc r < 2 ^ 8 := hr
    _ ≤ 2 ^ i := Nat.pow_le_pow_right (by decide) (by omega)

theorem clearBits_eq_self (r k : Nat) (hr : r < 256) (hk : r.testBit k = false) :
    clearBits r (1 <<< k) = r := by
  apply Nat.eq_of_testBit_eq
  intro i
  rw [testBit_clearBits, testBit_bit]
  by_cases hi : i < 8
  · by_cases hki : k = i
    · subst hki
      simp [hk]
    · simp [hi, hki]
  · simp [hi, testBit_eq_false_of_lt r i hr hi]

theorem testBit_setBits_other (r k i : Nat) (hr : r < 256) (hki : i ≠ k) :
    (setBits r (1 <<< k)).testBit i = r.testBit i := by
  rw [testBit_setBits, testBit_bit]
  have hne : ¬ k = i := fun h => hki h.symm
  by_cases hi : i < 8
  · simp [hi, hne]
  · simp [hi, testBit_eq_false_of_lt r i hr hi]

theorem testBit_clearBits_other (r k i : Nat) (hr : r < 256) (hki : i ≠ k) :
    (clearBits r (1 <<< k)).testBit i = r.testBit i := by
  rw [testBit_clearBits, testBit_bit]
  have hne : ¬ k = i := fun h => hki h.symm
  by_cases hi : i < 8
  · simp [hi, hne]
  · simp [hi, testBit_eq_false_of_lt r i hr hi]

theorem write_mem_gatingEvents (r v : Nat) (before : List (Int × Int)) (a : Int)
    (h : Event.writeTCCR2A v ∈ gatingEvents r before a) :
    v = setBits r (1 <<< COM2B1) ∨ v = clearBits r (1 <<< COM2B1) := by
  induction before with
  | nil =>
    simp [gatingEvents, lastEvents] at h
    exact h
  | cons p before ih =>
    rw [gatingEvents_cons] at h
    rcases List.mem_append.mp h with h | h
    · simp [pairEvents] at h
      exact h
    · exact ih h

theorem sendCommand_of_terminated (fuel : Nat) (command : List (Int × Int)) (s : State)
    (h : Terminated fuel command) :
    ∃ before a, sendCommand fuel command s =
      Outcome.returned { s with TCCR2A := clearBits s.TCCR2A (1 <<< COM2B1) }
        (gatingEvents s.TCCR2A before a) := by
  obtain ⟨n, a, hn, hfuel, hterm, hfirst⟩ := h
  have hlen := take_length_of_terminator command n a hterm
  refine ⟨command.take n, a, ?_⟩
  conv_lhs => rw [split_at_terminator command n a hterm]
  exact sendCommand_terminated (command.take n) _ a fuel s (by omega)
    (take_nonzero command n hfirst) (by omega)

theorem sendCommand_restores (fuel : Nat) (command : List (Int × Int)) (s : State)
    (h : Terminated fuel command) (hreg : s.TCCR2A < 256)
    (hoff : s.TCCR2A.testBit COM2B1 = false) :
    ∃ trace, sendCommand fuel command s = Outcome.returned s trace ∧
      ∀ v, Event.writeTCCR2A v ∈ trace → ∀ i, i ≠ COM2B1 → v.testBit i = s.TCCR2A.testBit i := by
  obtain ⟨before, a, hrun⟩ := sendCommand_of_terminated fuel command s h
  refine ⟨gatingEvents s.TCCR2A before a, ?_, ?_⟩
  · rw [hrun, clearBits_eq_self s.TCCR2A COM2B1 hreg hoff]
  · intro v hv i hi
    rcases write_mem_gatingEvents s.TCCR2A v before a hv with rfl | rfl
    · exact testBit_setBits_other s.TCCR2A COM2B1 i hreg hi
    · exact testBit_clearBits_other s.TCCR2A COM2B1 i hreg hi

theorem sendCommands_restores (fuel : Nat) (s : State) (hreg : s.TCCR2A < 256)
    (hoff : s.TCCR2A.testBit COM2B1 = false) (commands : List (List (Int × Int)))
    (h : ∀ c ∈ commands, Terminated fuel c) : sendCommands fuel commands s = some s := by
  induction commands with
  | nil => rfl
  | cons c more ih =>
    obtain ⟨trace, hrun, _⟩ := sendCommand_restores fuel c s (h c (by simp)) hreg hoff
    rw [sendCommands, hrun]
    exact ih (fun c' hc' => h c' (by simp [hc']))

theorem initialiseBody_TCCR2A_lt (s : State) (f : Nat) : (initialiseBody s f).TCCR2A < 256 := by
  rw [initialiseBody_TCCR2A]
  exact clearBits_lt _ _

theorem initialiseBody_COM2 (s : State) (f : Nat) (i : Nat)
    (hi : i = COM2A0 ∨ i = COM2A1 ∨ i = COM2B0 ∨ i = COM2B1) :
    (initialiseBody s f).TCCR2A.testBit i = false := by
  simp only [initialiseBody_TCCR2A, testBit_clearBits, testBit_setBits, Nat.testBit_or,
    testBit_bit]
  rcases hi with rfl | rfl | rfl | rfl <;>
    simp [COM2A0, COM2A1, COM2B0, COM2B1, WGM20, WGM21]

theorem exampleCommand_terminated : Terminated 3 exampleCommand := by
  refine ⟨2, 200, by decide, by decide, rfl, ?_⟩
  intro j p hj h
  have hj2 : j = 0 ∨ j = 1 := by omega
  rcases hj2 with rfl | rfl <;> simp [exampleCommand] at h <;> subst h <;> decide

/-- C11. Transmit preserves the configuration: for a table whose first zero
off-duration lies at an index `<= 255` and a state whose 8-bit `TCCR2A` has
`COM2B1 = 0`, `sendCommand` returns in exactly the state it was called in (all
fields and registers, `COM2B1` 0 again), and every value it stores to `TCCR2A`
on the way differs from the prior value in `COM2B1` at most. Any number of
consecutive calls on such tables therefore ends in that same state. Every state
returned by `initialise` qualifies, and there the stores also keep `COM2A0` and
`COM2A1` at 0, so OC2A is never connected. -/
theorem sendCommand_preserves_configuration (fuel : Nat) (command : List (Int × Int))
    (s : State) (h : Terminated fuel command) (hreg : s.TCCR2A < 256)
    (hoff : s.TCCR2A.testBit COM2B1 = false) :
    (∃ trace, sendCommand fuel command s = Outcome.returned s trace ∧
        ∀ v, Event.writeTCCR2A v ∈ trace → ∀ i, i ≠ COM2B1 →
          v.testBit i = s.TCCR2A.testBit i)
      ∧ (∀ commands : List (List (Int × Int)), (∀ c ∈ commands, Terminated fuel c) →
          sendCommands fuel commands s = some s)
      ∧ (∀ (s0 : State) (frequency_khz : Nat), 0 < frequency_khz →
          ∃ s1, initialise s0 frequency_khz = some s1 ∧ s1.TCCR2A < 256 ∧
            s1.TCCR2A.testBit COM2B1 = false ∧
            (∃ trace, sendCommand fuel command s1 = Outcome.returned s1 trace ∧
              ∀ v, Event.writeTCCR2A v ∈ trace →
                v.testBit COM2A0 = false ∧ v.testBit COM2A1 = false) ∧
            ∀ commands : List (List (Int × Int)), (∀ c ∈ commands, Terminated fuel c) →
              sendCommands fuel commands s1 = some s1) := by
  refine ⟨sendCommand_restores fuel command s h hreg hoff,
    sendCommands_restores fuel s hreg hoff, ?_⟩
  intro s0 f hf
  have hreg1 := initialiseBody_TCCR2A_lt s0 f
  have hoff1 := initialiseBody_COM2 s0 f COM2B1 (by simp)
  refine ⟨initialiseBody s0 f, initialise_eq_some s0 f hf, hreg1, hoff1, ?_,
    sendCommands_restores fuel _ hreg1 hoff1⟩
  obtain ⟨trace, hrun, hbits⟩ := sendCommand_restores fuel command _ h hreg1 hoff1
  refine ⟨trace, hrun, ?_⟩
  intro v hv
  rw [hbits v hv COM2A0 (by decide), hbits v hv COM2A1 (by decide)]
  exact ⟨initialiseBody_COM2 s0 f COM2A0 (by simp), initialiseBody_COM2 s0 f COM2A1 (by simp)⟩

theorem sendCommand_preserves_configuration_witness :
    (Terminated 3 exampleCommand ∧ resetState.TCCR2A < 256 ∧
      resetState.TCCR2A.testBit COM2B1 = false) ∧
    (∃ trace, sendCommand 3 exampleCommand resetState = Outcome.returned resetState trace ∧
        ∀ v, Event.writeTCCR2A v ∈ trace → ∀ i, i ≠ COM2B1 →
          v.testBit i = resetState.TCCR2A.testBit i) ∧
    (∀ commands : List (List (Int × Int)), (∀ c ∈ commands, Terminated 3 c) →
        sendCommands 3 commands resetState = some resetState) :=
  have h := sendCommand_preserves_configuration 3 exampleCommand resetState
    exampleCommand_terminated (by decide) (by decide)
  ⟨⟨exampleCommand_terminated, by decide, by decide⟩, h.1, h.2.1⟩

/-! ## What `initialise` overwrites and what it keeps -/

/-- C12, counterexample. For the same frequency 38, `initialise` from the
all-zero registers leaves `TCCR2A = 1`, `TCCR2B = 9`, `TIMSK2 = 0`, and from the
all-ones registers leaves `TCCR2A = 13`, `TCCR2B = 249`, `TIMSK2 = 248`: bits of
the prior contents survive in all three registers. -/
theorem initialise_keeps_prior_bits :
    (initialise resetState 38).map State.TCCR2A = some 1 ∧
    (initialise fullState 38).map State.TCCR2A = some 13 ∧
    (initialise resetState 38).map State.TCCR2B = some 9 ∧
    (initialise fullState 38).map State.TCCR2B = some 249 ∧
    (initialise resetState 38).map State.TIMSK2 = some 0 ∧
    (initialise fullState 38).map State.TIMSK2 = some 248 := by
  refine ⟨?_, ?_, ?_, ?_, ?_, ?_⟩ <;> decide

/-- C12, amended. For every `frequency_khz > 0` and every two prior states
with 8-bit registers, `initialise` returns from both; `OCR2A` and `OCR2B` are
the same in the two results; `TCCR2A`, `TCCR2B` and `TIMSK2` agree in every bit
the function writes (`WGM20`, `WGM21`, `COM2A0`, `COM2A1`, `COM2B0`, `COM2B1`;
`CS20`, `CS21`, `CS22`, `WGM22`; `OCIE2A`, `OCIE2B`, `TOIE2`); and every other
bit of these three registers keeps the value it had before the call. -/
theorem initialise_overwrites (s1 s2 : State) (frequency_khz : Nat) (hpos : 0 < frequency_khz)
    (h1 : s1.TCCR2A < 256 ∧ s1.TCCR2B < 256 ∧ s1.TIMSK2 < 256)
    (h2 : s2.TCCR2A < 256 ∧ s2.TCCR2B < 256 ∧ s2.TIMSK2 < 256) :
    ∃ r1 r2, initialise s1 frequency_khz = some r1 ∧ initialise s2 frequency_khz = some r2 ∧
      r1.OCR2A = r2.OCR2A ∧ r1.OCR2B = r2.OCR2B ∧
      (∀ i ∈ [WGM20, WGM21, COM2A0, COM2A1, COM2B0, COM2B1],
        r1.TCCR2A.testBit i = r2.TCCR2A.testBit i) ∧
      (∀ i ∈ [CS20, CS21, CS22, WGM22], r1.TCCR2B.testBit i = r2.TCCR2B.testBit i) ∧
      (∀ i ∈ [OCIE2A, OCIE2B, TOIE2], r1.TIMSK2.testBit i = r2.TIMSK2.testBit i) ∧
      (∀ i ∉ [WGM20, WGM21, COM2A0, COM2A1, COM2B0, COM2B1],
        r1.TCCR2A.testBit i = s1.TCCR2A.testBit i ∧ r2.TCCR2A.testBit i = s2.TCCR2A.testBit i) ∧
      (∀ i ∉ [CS20, CS21, CS22, WGM22],
        r1.TCCR2B.testBit i = s1.TCCR2B.testBit i ∧ r2.TCCR2B.testBit i = s2.TCCR2B.testBit i) ∧
      (∀ i ∉ [OCIE2A, OCIE2B, TOIE2],
        r1.TIMSK2.testBit i = s1.TIMSK2.testBit i ∧ r2.TIMSK2.testBit i = s2.TIMSK2.testBit i) := by
  have keepA : ∀ s : State, s.TCCR2A < 256 →
      ∀ i ∉ [WGM20, WGM21, COM2A0, COM2A1, COM2B0, COM2B1],
        (initialiseBody s frequency_khz).TCCR2A.testBit i = s.TCCR2A.testBit i := by
    intro s hs i hi
    simp only [initialiseBody_TCCR2A, testBit_clearBits, testBit_setBits, Nat.testBit_or,
      testBit_bit]
    simp only [List.mem_cons, List.mem_singleton, List.not_mem_nil, or_false, not_or] at hi
    obtain ⟨a, b, c, d, e, g⟩ := hi
    by_cases h8 : i < 8
    · simp [h8, Ne.symm a, Ne.symm b, Ne.symm c, Ne.symm d, Ne.symm e, Ne.symm g]
    · simp [h8, testBit_eq_false_of_lt _ i hs h8]
  have keepB : ∀ s : State, s.TCCR2B < 256 → ∀ i ∉ [CS20, CS21, CS22, WGM22],
      (initialiseBody s frequency_khz).TCCR2B.testBit i = s.TCCR2B.testBit i := by
    intro s hs i hi
    simp only [initialiseBody_TCCR2B, testBit_clearBits, testBit_setBits, Nat.testBit_or,
      testBit_bit]
    simp only [List.mem_cons, List.mem_singleton, List.not_mem_nil, or_false, not_or] at hi
    obtain ⟨a, b, c, d⟩ := hi
    by_cases h8 : i < 8
    · simp [h8, Ne.symm a, Ne.symm b, Ne.symm c, Ne.symm d]
    · simp [h8, testBit_eq_false_of_lt _ i hs h8]
  have keepM : ∀ s : State, s.TIMSK2 < 256 → ∀ i ∉ [OCIE2A, OCIE2B, TOIE2],
      (initialiseBody s frequency_khz).TIMSK2.testBit i = s.TIMSK2.testBit i := by
    intro s hs i hi
    simp only [initialiseBody_TIMSK2, testBit_clearBits, Nat.testBit_or, testBit_bit]
    simp only [List.mem_cons, List.mem_singleton, List.not_mem_nil, or_false, not_or] at hi
    obtain ⟨a, b, c⟩ := hi
    by_cases h8 : i < 8
    · simp [h8, Ne.symm a, Ne.symm b, Ne.symm c]
    · simp [h8, testBit_eq_false_of_lt _ i hs h8]
  refine ⟨initialiseBody s1 frequency_khz, initialiseBody s2 frequency_khz,
    initialise_eq_some s1 frequency_khz hpos, initialise_eq_some s2 frequency_khz hpos,
    rfl, rfl, ?_, ?_, ?_,
    fun i hi => ⟨keepA s1 h1.1 i hi, keepA s2 h2.1 i hi⟩,
    fun i hi => ⟨keepB s1 h1.2.1 i hi, keepB s2 h2.2.1 i hi⟩,
    fun i hi => ⟨keepM s1 h1.2.2 i hi, keepM s2 h2.2.2 i hi⟩⟩
  · intro i hi
    simp only [List.mem_cons, List.mem_singleton, List.not_mem_nil, or_false] at hi
    simp only [initialiseBody_TCCR2A, testBit_clearBits, testBit_setBits, Nat.testBit_or,
      testBit_bit]
    rcases hi with rfl | rfl | rfl | rfl | rfl | rfl <;>
      simp [COM2A0, COM2A1, COM2B0, COM2B1, WGM20, WGM21]
  · intro i hi
    simp only [List.mem_cons, List.mem_singleton, List.not_mem_nil, or_false] at hi
    simp only [initialiseBody_TCCR2B, testBit_clearBits, testBit_setBits, Nat.testBit_or,
      testBit_bit]
    rcases hi with rfl | rfl | rfl | rfl <;> simp [CS20, CS21, CS22, WGM22]
  · intro i hi
    simp only [List.mem_cons, List.mem_singleton, List.not_mem_nil, or_false] at hi
    simp only [initialiseBody_TIMSK2, testBit_clearBits, Nat.testBit_or, testBit_bit]
    rcases hi with rfl | rfl | rfl <;> simp [OCIE2A, OCIE2B, TOIE2]

theorem initialise_overwrites_witness :
    (0 < 38 ∧ (resetState.TCCR2A < 256 ∧ resetState.TCCR2B < 256 ∧ resetState.TIMSK2 < 256) ∧
      (fullState.TCCR2A < 256 ∧ fullState.TCCR2B < 256 ∧ fullState.TIMSK2 < 256)) ∧
    ∃ r1 r2, initialise resetState 38 = some r1 ∧ initialise fullState 38 = some r2 ∧
      r1.OCR2A = r2.OCR2A ∧ r1.OCR2B = r2.OCR2B ∧
      (∀ i ∈ [WGM20, WGM21, COM2A0, COM2A1, COM2B0, COM2B1],
        r1.TCCR2A.testBit i = r2.TCCR2A.testBit i) ∧
      (∀ i ∈ [CS20, CS21, CS22, WGM22], r1.TCCR2B.testBit i = r2.TCCR2B.testBit i) ∧
      (∀ i ∈ [OCIE2A, OCIE2B, TOIE2], r1.TIMSK2.testBit i = r2.TIMSK2.testBit i) ∧
      (∀ i ∉ [WGM20, WGM21, COM2A0, COM2A1, COM2B0, COM2B1],
        r1.TCCR2A.testBit i = resetState.TCCR2A.testBit i ∧
          r2.TCCR2A.testBit i = fullState.TCCR2A.testBit i) ∧
      (∀ i ∉ [CS20, CS21, CS22, WGM22],
        r1.TCCR2B.testBit i = resetState.TCCR2B.testBit i ∧
          r2.TCCR2B.testBit i = fullState.TCCR2B.testBit i) ∧
      (∀ i ∉ [OCIE2A, OCIE2B, TOIE2],
        r1.TIMSK2.testBit i = resetState.TIMSK2.testBit i ∧
          r2.TIMSK2.testBit i = fullState.TIMSK2.testBit i) :=
  ⟨⟨by decide, by decide, by decide⟩,
   initialise_overwrites resetState fullState 38 (by decide) (by decide) (by decide)⟩

/-! ## The duty ratio and the 8-bit boundary of the period -/

theorem period_fits_iff (f : Nat) (hlo : 1 ≤ f) :
    FREQ_CONV_FACTOR / f < 256 ↔ 32 ≤ f := by
  rw [Nat.div_lt_iff_lt_mul (by omega)]
  simp only [FREQ_CONV_FACTOR]
  omega

theorem period_ge_31 (f : Nat) (hlo : 1 ≤ f) (hhi : f ≤ 255) : 31 ≤ FREQ_CONV_FACTOR / f := by
  rw [Nat.le_div_iff_mul_le (by omega)]
  simp only [FREQ_CONV_FACTOR]
  omega

/-- C13. The duty ratio is two thirds, not one half: for every `frequency_khz`
in 32..255, `initialise` returns with
`2 * freq_ticks - 2 <= 3 * duty_ticks <= 2 * freq_ticks` and
`2 * duty_ticks > freq_ticks`, so `duty_ticks` differs from `freq_ticks / 2`. -/
theorem initialise_duty_two_thirds (s : State) (frequency_khz : Nat)
    (hlo : 32 ≤ frequency_khz) (hhi : frequency_khz ≤ 255) :
    ∃ s', initialise s frequency_khz = some s' ∧
      2 * s'.freq_ticks - 2 ≤ 3 * s'.duty_ticks ∧ 3 * s'.duty_ticks ≤ 2 * s'.freq_ticks ∧
      2 * s'.duty_ticks > s'.freq_ticks ∧ s'.duty_ticks ≠ s'.freq_ticks / 2 := by
  refine ⟨initialiseBody s frequency_khz, initialise_eq_some s frequency_khz (by omega), ?_⟩
  have hfit : FREQ_CONV_FACTOR / frequency_khz < 256 :=
    (period_fits_iff frequency_khz (by omega)).mpr hlo
  have hfreq : (initialiseBody s frequency_khz).freq_ticks = FREQ_CONV_FACTOR / frequency_khz :=
    Nat.mod_eq_of_lt hfit
  have hp : 31 ≤ (initialiseBody s frequency_khz).freq_ticks := by
    rw [hfreq]
    exact period_ge_31 frequency_khz (by omega) hhi
  have hp256 : (initialiseBody s frequency_khz).freq_ticks < 256 := by
    rw [hfreq]
    exact hfit
  have hq : ((initialiseBody s frequency_khz).freq_ticks * 2) / 3 < 256 := by omega
  have hduty : (initialiseBody s frequency_khz).duty_ticks =
      ((initialiseBody s frequency_khz).freq_ticks * 2) / 3 := Nat.mod_eq_of_lt hq
  rw [hduty]
  refine ⟨?_, ?_, ?_, ?_⟩ <;> omega

theorem initialise_duty_two_thirds_witness :
    (32 ≤ 38 ∧ 38 ≤ 255) ∧
    ∃ s', initialise resetState 38 = some s' ∧
      2 * s'.freq_ticks - 2 ≤ 3 * s'.duty_ticks ∧ 3 * s'.duty_ticks ≤ 2 * s'.freq_ticks ∧
      2 * s'.duty_ticks > s'.freq_ticks ∧ s'.duty_ticks ≠ s'.freq_ticks / 2 :=
  ⟨by decide, initialise_duty_two_thirds resetState 38 (by decide) (by decide)⟩

/-- C14. The exact 8-bit boundary of the period: for every `frequency_khz` in
1..255, `initialise` returns with `freq_ticks = (8000 / frequency_khz) mod 256`;
this equals `8000 / frequency_khz` exactly when `frequency_khz >= 32`, and for
`frequency_khz` in 1..31 it differs from it. A frequency of 31 stores 2 and a
frequency of 30 stores 10. -/
theorem initialise_period_boundary (s : State) (frequency_khz : Nat)
    (hlo : 1 ≤ frequency_khz) (hhi : frequency_khz ≤ 255) :
    ∃ s', initialise s frequency_khz = some s' ∧
      s'.freq_ticks = (FREQ_CONV_FACTOR / frequency_khz) % 256 ∧
      (s'.freq_ticks = FREQ_CONV_FACTOR / frequency_khz ↔ 32 ≤ frequency_khz) ∧
      (frequency_khz ≤ 31 → s'.freq_ticks ≠ FREQ_CONV_FACTOR / frequency_khz) ∧
      (initialise s 31).map State.freq_ticks = some 2 ∧
      (initialise s 30).map State.freq_ticks = some 10 := by
  refine ⟨initialiseBody s frequency_khz, initialise_eq_some s frequency_khz (by omega), rfl,
    ?_, ?_, ?_, ?_⟩
  · have hstored : (initialiseBody s frequency_khz).freq_ticks =
        (FREQ_CONV_FACTOR / frequency_khz) % 256 := rfl
    have hfit := period_fits_iff frequency_khz hlo
    constructor
    · intro h
      apply hfit.mp
      have := Nat.mod_lt (FREQ_CONV_FACTOR / frequency_khz) (show 0 < 256 by decide)
      omega
    · intro h
      rw [hstored]
      exact Nat.mod_eq_of_lt (hfit.mpr h)
  · intro h31 heq
    have hstored : (initialiseBody s frequency_khz).freq_ticks =
        (FREQ_CONV_FACTOR / frequency_khz) % 256 := rfl
    have hfit := period_fits_iff frequency_khz hlo
    have := Nat.mod_lt (FREQ_CONV_FACTOR / frequency_khz) (show 0 < 256 by decide)
    have : FREQ_CONV_FACTOR / frequency_khz < 256 := by omega
    have := hfit.mp this
    omega
  · rw [initialise_eq_some s 31 (by decide)]
    rfl
  · rw [initialise_eq_some s 30 (by decide)]
    rfl

theorem initialise_period_boundary_witness :
    (1 ≤ 31 ∧ 31 ≤ 255) ∧
    ∃ s', initialise resetState 31 = some s' ∧
      s'.freq_ticks = (FREQ_CONV_FACTOR / 31) % 256 ∧
      (s'.freq_ticks = FREQ_CONV_FACTOR / 31 ↔ 32 ≤ 31) ∧
      (31 ≤ 31 → s'.freq_ticks ≠ FREQ_CONV_FACTOR / 31) ∧
      (initialise resetState 31).map State.freq_ticks = some 2 ∧
      (initialise resetState 30).map State.freq_ticks = some 10 :=
  ⟨by decide, initialise_period_boundary resetState 31 (by decide) (by decide)⟩

end IrRemote
